import Mathlib

/-!
Verification of the editing module of this repository (phobos/utils/editing.py)
against its natural-language specification.

The scene graph owned by the host application is embedded shallowly: a scene is
a list of object records, each with a numeric id (standing for the unique object
name), an optional parent id, a phobostype tag, a custom-property table, a world
matrix and a name-label visibility flag.  Host operators are translated to pure
scene transformations:

* parent_clear(type = CLEAR_KEEP_TRANSFORM) and parent_set change only the
  parent pointer; both keep the world transform, which is why matrix_world is
  untouched by them;
* transform_apply(scale = True) bakes the object scale into the data, leaving
  the world location and rotation intact;
* world matrices are symbolic terms (MatE) whose constructors mirror the
  mathutils expressions built by the source.

Groups (bpy.data.groups) are embedded as a list of group names, which is all
removeSubmodel and the lookup loop of instantiateSubmodel inspect.
-/

namespace Phobos

/-- Symbolic world matrices: mathutils matrix expressions built by the module. -/
inductive MatE where
  /-- an arbitrary initial world matrix -/
  | base : Nat → MatE
  /-- result of transform_apply(scale = True): same world location and
      rotation, scale baked to identity -/
  | scaleApplied : MatE → MatE
  /-- mathutils.Matrix.Translation(loc) where loc is the translation component
      of the decomposition of the argument matrix -/
  | translationOf : MatE → MatE
  /-- rot.to_matrix().to_4x4() where rot is the rotation component of the
      decomposition of the argument matrix -/
  | rotationOf : MatE → MatE
  /-- mathutils.Euler((math.radians(180.0), 0.0, math.radians(180.0)), XYZ)
      .to_matrix().to_4x4(): the default connection offset of 180 degrees about
      X and 180 degrees about Z -/
  | defaultConnectRot : MatE
  /-- matrix product -/
  | mul : MatE → MatE → MatE
deriving DecidableEq, Repr

/-- A scene object: id (unique name), parent pointer, phobostype tag,
custom properties, world matrix, name-label visibility. -/
structure SObj where
  oid : Nat
  parent : Option Nat
  phobostype : String
  props : List (String × String)
  matrix_world : MatE
  show_name : Bool
deriving DecidableEq, Repr

abbrev Scene := List SObj

/-- Look an object up by its id (name binding in the host). -/
def findObj (s : Scene) (i : Nat) : Option SObj :=
  s.find? (fun o => o.oid == i)

def parentOf (s : Scene) (i : Nat) : Option Nat :=
  (findObj s i).bind (·.parent)

def tagOf (s : Scene) (i : Nat) : Option String :=
  (findObj s i).map (·.phobostype)

def matrixOf (s : Scene) (i : Nat) : Option MatE :=
  (findObj s i).map (·.matrix_world)

def showNameOf (s : Scene) (i : Nat) : Option Bool :=
  (findObj s i).map (·.show_name)

def idsOf (s : Scene) : List Nat :=
  s.map (·.oid)

/-- Update the object with id i by f (f keeps the id in all uses below). -/
def updObj (s : Scene) (i : Nat) (f : SObj → SObj) : Scene :=
  s.map (fun o => if o.oid == i then f o else o)

/-- Host parenting operators: only the parent pointer changes, the world
transform is kept (CLEAR_KEEP_TRANSFORM and parent_set both preserve it). -/
def setParent (s : Scene) (i : Nat) (p : Option Nat) : Scene :=
  updObj s i (fun o => { o with parent := p })

def setMatrix (s : Scene) (i : Nat) (m : MatE) : Scene :=
  updObj s i (fun o => { o with matrix_world := m })

def setShowName (s : Scene) (i : Nat) (b : Bool) : Scene :=
  updObj s i (fun o => { o with show_name := b })

/-- bpy.ops.object.transform_apply(location=False, rotation=False, scale=True)
(together with the preceding make_single_user, which does not move objects). -/
def applyScaleOp (s : Scene) (i : Nat) : Scene :=
  updObj s i (fun o => { o with matrix_world := MatE.scaleApplied o.matrix_world })

def getProp (s : Scene) (i : Nat) (k : String) : Option String :=
  (findObj s i).bind (fun o => (o.props.find? (fun kv => kv.1 == k)).map (·.2))

/-- obj[key] = value on host custom properties: replace in place or append. -/
def setProp (s : Scene) (i : Nat) (k v : String) : Scene :=
  updObj s i (fun o =>
    { o with props :=
        if o.props.any (fun kv => kv.1 == k) then
          o.props.map (fun kv => if kv.1 == k then (k, v) else kv)
        else o.props ++ [(k, v)] })

/-- del obj[key] on host custom properties. -/
def delProp (s : Scene) (i : Nat) (k : String) : Scene :=
  updObj s i (fun o => { o with props := o.props.filter (fun kv => kv.1 != k) })

/-! ## restructureKinematicTree -/

/-- Fuel-driven ascent of the parent chain.  The fuel only makes the walk a
total function; on a wellformed scene (acyclic parent chains through objects of
the scene) a fuel of s.length is enough to reach the terminal object. -/
def getRootAux (s : Scene) : Nat → Nat → Nat
  | 0, i => i
  | fuel + 1, i =>
    match parentOf s i with
    | none => i
    | some p => getRootAux s fuel p

/-- Modelled from the spec: sUtils.getRoot (a sibling helper module, not part
of the analysed source file) follows the parent chain, which the spec assumes
is acyclic and terminates at a single root, and returns that root. -/
def getRoot (s : Scene) (i : Nat) : Nat :=
  getRootAux s s.length i

/-- The while loop of restructureKinematicTree gathering the chain of links:
while obj.parent.name is not the root name, step to the parent and append it to
the collected list if its phobostype is link.  A missing parent would raise in
Python (obj.parent is None has no name); the fuel case and the none case return
the accumulator and are unreachable under the wellformedness hypotheses of the
theorems below. -/
def collectChainAux (s : Scene) (rootId : Nat) : Nat → Nat → List Nat → List Nat
  | 0, _, acc => acc
  | fuel + 1, i, acc =>
    match parentOf s i with
    | none => acc
    | some p =>
      if p = rootId then acc
      else
        collectChainAux s rootId fuel p
          (acc ++ if tagOf s p == some "link" then [p] else [])

/-- links = [link]; the ascent loop; links.append(root). -/
def collectChain (s : Scene) (linkId rootId : Nat) : List Nat :=
  collectChainAux s rootId s.length linkId [linkId] ++ [rootId]

/-- selectObjects(links); bpy.ops.object.parent_clear(type=CLEAR_KEEP_TRANSFORM):
every collected object loses its parent (world transforms are kept). -/
def unparentAll (s : Scene) (c : List Nat) : Scene :=
  c.foldl (fun sc i => setParent sc i none) s

/-- The reparenting loop: for consecutive entries (parent, child) of the chain,
parent_set with the first entry active parents the child to it. -/
def reparentChain (s : Scene) : List Nat → Scene
  | a :: b :: rest => reparentChain (setParent s b (some a)) (b :: rest)
  | _ => s

/-- link[key] = root[key]; del root[key] (guarded by key in root). -/
def transferProp (s : Scene) (src dst : Nat) (k : String) : Scene :=
  match getProp s src k with
  | some v => delProp (setProp s dst k v) src k
  | none => s

/-- restructureKinematicTree(link, root=None).  rootArg = none is the default
call, in which the current root is looked up with sUtils.getRoot. -/
def restructureKinematicTree (s : Scene) (linkId : Nat) (rootArg : Option Nat) : Scene :=
  let rootId := match rootArg with
    | some r => r
    | none => getRoot s linkId
  match parentOf s linkId with
  | none => s
  | some _ =>
    let c := collectChain s linkId rootId
    let s1 := unparentAll s c
    let s2 := reparentChain s1 c
    transferProp (transferProp s2 rootId linkId "modelname") rootId linkId "version"

/-- Previous element of a chain list: prevIn c j = some a when a immediately
precedes j in c. -/
def prevIn : List Nat → Nat → Option Nat
  | a :: b :: rest, j => if b = j then some a else prevIn (b :: rest) j
  | _, _ => none

/-- Boolean check that consecutive entries of the list are parent-linked in the
scene: each entry has the next one as its parent. -/
def isChainB (s : Scene) : List Nat → Bool
  | i :: j :: rest => parentOf s i == some j && isChainB s (j :: rest)
  | _ => true

/-- Direct parent edges both of whose endpoints are tagged link. -/
def linkEdges (s : Scene) : List (Nat × Nat) :=
  (s.filter (fun o => o.phobostype == "link")).filterMap (fun o =>
    match o.parent with
    | some p => if tagOf s p == some "link" then some (p, o.oid) else none
    | none => none)

/-! ## connectInterfaces / disconnectInterfaces -/

/-- connectInterfaces(parentinterface, childinterface, transform=None).
The error value models the AttributeError Python raises when the child
interface has no parent (restructureKinematicTree(None) dereferences None). -/
def connectInterfaces (s : Scene) (parentId childId : Nat) (transform : Option MatE) :
    Except String Scene :=
  match parentOf s childId with
  | none => .error "AttributeError"
  | some p =>
    let s1 := if getRoot s childId ≠ p then restructureKinematicTree s p none else s
    let childsubmodel := parentOf s1 childId
    let s2 := applyScaleOp s1 parentId
    let s3 := applyScaleOp s2 childId
    let s4 := setParent s3 childId none
    let s5 := match childsubmodel with
      | some m => setParent s4 m (some childId)
      | none => s4
    let s6 := setParent s5 childId (some parentId)
    let pm := (matrixOf s6 parentId).getD (MatE.base 0)
    let t := match transform with
      | some t => t
      | none => MatE.defaultConnectRot
    let s7 := setMatrix s6 childId (MatE.mul (MatE.mul (MatE.translationOf pm) (MatE.rotationOf pm)) t)
    let s8 := setShowName s7 parentId false
    let s9 := setShowName s8 childId false
    .ok s9

/-- Children of an object are the scene objects whose parent pointer names it. -/
def childrenOf (s : Scene) (i : Nat) : List Nat :=
  (s.filter (fun o => o.parent == some i)).map (·.oid)

/-- The root selection of disconnectInterfaces: first child tagged submodel,
otherwise the first child; none when there is no child at all (in which case
the Python local root is never assigned). -/
def pickNewRoot (s : Scene) (cs : List Nat) : Option Nat :=
  match cs with
  | [] => none
  | c0 :: _ => some (((cs.find? (fun i => tagOf s i == some "submodel"))).getD c0)

/-- disconnectInterfaces(parentinterface, childinterface, transform=None).
The error value carries the scene at the moment the unbound local root is
used, which raises an (UnboundLocal)NameError in Python. -/
def disconnectInterfaces (s : Scene) (parentId childId : Nat) (transform : Option MatE) :
    Except (String × Scene) Scene :=
  let s1 := setParent s childId none
  let cs := childrenOf s1 childId
  match pickNewRoot s1 cs with
  | none => .error ("NameError", s1)
  | some rootId =>
    let s2 := setParent s1 rootId none
    let s3 := setParent s2 childId (some rootId)
    let s4 := match transform with
      | some t => setMatrix s3 childId (MatE.mul ((matrixOf s3 rootId).getD (MatE.base 0)) t)
      | none => s3
    let s5 := setShowName s4 parentId true
    let s6 := setShowName s5 childId true
    .ok s6

/-! ## removeSubmodel -/

/-- The second half of removeSubmodel under interfaces=True: build the
interface group name, remove it and return True when present, else fall
through to return False. -/
def removeInterfacesGroup (groups : List String) (submodelname version : String) :
    List String × Bool :=
  let interfacegroupname :=
    "interfaces:" ++ submodelname ++ (if version = "" then "" else "/" ++ version)
  if interfacegroupname ∈ groups then (groups.erase interfacegroupname, true)
  else (groups, false)

/-- removeSubmodel(submodelname, submodeltype, version, interfaces) over the
list of group names (bpy.data.groups).  Returns the remaining groups and the
Python return value. -/
def removeSubmodel (groups : List String) (submodelname submodeltype version : String)
    (withInterfaces : Bool) : List String × Bool :=
  let submodelgroupname :=
    submodeltype ++ ":" ++ submodelname ++ (if version = "" then "" else "/" ++ version)
  if submodelgroupname ∈ groups then
    let g1 := groups.erase submodelgroupname
    if !withInterfaces then (g1, true)
    else removeInterfacesGroup g1 submodelname version
  else
    if withInterfaces then removeInterfacesGroup groups submodelname version
    else (groups, false)

/-! ## instantiateSubmodel (the group lookup and its failure behaviour) -/

instance {e a : Type} [DecidableEq e] [DecidableEq a] : DecidableEq (Except e a) := fun x y =>
  match x, y with
  | .error u, .error v =>
    if h : u = v then .isTrue (by rw [h]) else .isFalse (by intro hc; cases hc; exact h rfl)
  | .ok u, .ok v =>
    if h : u = v then .isTrue (by rw [h]) else .isFalse (by intro hc; cases hc; exact h rfl)
  | .error _, .ok _ => .isFalse (by intro hc; cases hc)
  | .ok _, .error _ => .isFalse (by intro hc; cases hc)

/-- Python substring test needle in hay, on the character lists of the two
strings. -/
def strContainsSub (hay needle : String) : Bool :=
  hay.data.tails.any (fun t => needle.data.isPrefixOf t)

/-- Python str.split(sep) for a one-character separator, on character lists. -/
def pySplitChar (sep : Char) : List Char → List (List Char)
  | [] => [[]]
  | c :: rest =>
    let r := pySplitChar sep rest
    if c = sep then [] :: r
    else
      match r with
      | h :: t => (c :: h) :: t
      | [] => [[c]]

/-- The group-search loop of instantiateSubmodel.  For each group name g:
if g has a colon and equals submodelname it becomes the submodel group; if g
starts with interfaces: and submodelname.split(colon)[1] occurs in g it becomes
the interface group.  The split indexing raises IndexError when submodelname
has no colon, modelled by the error case. -/
def findSubmodelGroups (submodelname : String) :
    List String → Option String → Option String → Except String (Option String × Option String)
  | [], sm, ifc => .ok (sm, ifc)
  | g :: gs, sm, ifc =>
    let sm1 := if g.data.contains ':' && submodelname == g then some g else sm
    if "interfaces:".data.isPrefixOf g.data then
      match (pySplitChar ':' submodelname.data).get? 1 with
      | none => .error "IndexError"
      | some part =>
        findSubmodelGroups submodelname gs sm1
          (if g.data.tails.any (fun t => part.isPrefixOf t) then some g else ifc)
    else findSubmodelGroups submodelname gs sm1 ifc

/-- instantiateSubmodel(submodelname, instancename): returns the log lines
emitted before the host instancing step together with either the created
instance (the host-side group instancing, renaming and reparenting is
abstracted to returning the instance name) or the exception Python raises.
When no submodel group matched, submodel is None and
bpy.ops.object.group_instance_add(group=submodel.name) dereferences None,
raising AttributeError right after the error was logged. -/
def instantiateSubmodel (groups : List String) (submodelname instancename : String) :
    List String × Except String String :=
  match findSubmodelGroups submodelname groups none none with
  | .error e => ([], .error e)
  | .ok (submodel, ifaces) =>
    let logs :=
      (if submodel.isNone then ["ERROR: Selected submodel is not defined."] else []) ++
      (if ifaces.isNone then ["INFO: No interfaces defined for this submodel."] else [])
    match submodel with
    | none => (logs, .error "AttributeError")
    | some _ => (logs, .ok instancename)

/-! ## getPropertiesSubset -/

/-- Python str.replace(pat, empty string) on character lists: non-overlapping
occurrences are removed left to right.  The fuel is the length of the scanned
list; each step consumes at least one character, so the fuel never runs out. -/
def pyReplaceAllAux (pat : List Char) : Nat → List Char → List Char
  | _, [] => []
  | 0, l => l
  | fuel + 1, c :: rest =>
    if pat.isEmpty then c :: rest
    else if pat.isPrefixOf (c :: rest) then pyReplaceAllAux pat fuel ((c :: rest).drop pat.length)
    else c :: pyReplaceAllAux pat fuel rest

def pyReplaceAll (pat l : List Char) : List Char :=
  pyReplaceAllAux pat l.length l

/-- d[k] = v on a Python dict kept as an insertion-ordered association list:
an existing key is overwritten in place, a new key is appended. -/
def pyDictUpdate (d : List (List Char × Nat)) (k : List Char) (v : Nat) :
    List (List Char × Nat) :=
  if d.any (fun kv => kv.1 == k) then d.map (fun kv => if kv.1 == k then (k, v) else kv)
  else d ++ [(k, v)]

/-- A dict comprehension: insert the produced pairs in order. -/
def pyDictOfList (l : List (List Char × Nat)) : List (List Char × Nat) :=
  l.foldl (fun d kv => pyDictUpdate d kv.1 kv.2) []

/-- getPropertiesSubset(obj, category): category defaults to obj.phobostype
when None or empty, then the comprehension keeps the items whose key starts
with category + slash and maps each key through
key.replace(category + slash, empty string). -/
def getPropertiesSubset (items : List (List Char × Nat)) (phobostypeKey : List Char)
    (category : Option (List Char)) : List (List Char × Nat) :=
  let cat := match category with
    | none => phobostypeKey
    | some [] => phobostypeKey
    | some c => c
  pyDictOfList
    ((items.filter (fun kv => (cat ++ ['/']).isPrefixOf kv.1)).map
      (fun kv => (pyReplaceAll (cat ++ ['/']) kv.1, kv.2)))

/-- Stated from the claim text, for comparison with the source behaviour:
keys with the category prefix keep everything after it, i.e. only the leading
occurrence of the prefix is removed. -/
def stripLeadingOnly (items : List (List Char × Nat)) (cat : List Char) :
    List (List Char × Nat) :=
  pyDictOfList
    ((items.filter (fun kv => (cat ++ ['/']).isPrefixOf kv.1)).map
      (fun kv => (kv.1.drop (cat.length + 1), kv.2)))

/-! ## removeProperties -/

/-- One iteration of the props loop of removeProperties on one object:
exact key match deletes that key, otherwise a name with a trailing star
deletes every key starting with the name without the star, iterating over a
snapshot of the keys (obj.keys() is a plain list in the host).  A name that is
empty would raise IndexError on prop[-1] in Python; the claims never pass
one, and the final case leaves the table unchanged. -/
def removePropStep (d : List (List Char × Nat)) (prop : List Char) :
    List (List Char × Nat) :=
  if d.any (fun kv => kv.1 == prop) then d.filter (fun kv => kv.1 != prop)
  else if prop.getLast? == some '*' then
    (d.map Prod.fst).foldl
      (fun d2 k =>
        if prop.dropLast.isPrefixOf k then d2.filter (fun kv => kv.1 != k) else d2)
      d
  else d

def removeProps1 (props : List (List Char)) (d : List (List Char × Nat)) :
    List (List Char × Nat) :=
  props.foldl removePropStep d

mutual
/-- An object with custom properties and child objects (only what
removeProperties touches). -/
inductive PObj where
  | node : List (List Char × Nat) → PForest → PObj
inductive PForest where
  | nil : PForest
  | cons : PObj → PForest → PForest
end

def PObj.propsOf : PObj → List (List Char × Nat)
  | .node d _ => d

def PObj.childrenOf : PObj → PForest
  | .node _ cs => cs

mutual
/-- removeProperties(obj, props, recursive): remove the listed names from the
object and, when recursive, from all children recursively. -/
def removeProperties (props : List (List Char)) (recursive : Bool) : PObj → PObj
  | .node d cs =>
    .node (removeProps1 props d) (if recursive then removePropertiesF props cs else cs)
def removePropertiesF (props : List (List Char)) : PForest → PForest
  | .nil => .nil
  | .cons c cs => .cons (removeProperties props true c) (removePropertiesF props cs)
end

/-- Stated from the claim text, for comparison: delete exactly the keys that
start with sensor. -/
def sensorFilter (d : List (List Char × Nat)) : List (List Char × Nat) :=
  d.filter (fun kv => !("sensor".data.isPrefixOf kv.1))

mutual
/-- Stated from the claim text: apply sensorFilter at every node. -/
def sensorStripTree : PObj → PObj
  | .node d cs => .node (sensorFilter d) (sensorStripTreeF cs)
def sensorStripTreeF : PForest → PForest
  | .nil => .nil
  | .cons c cs => .cons (sensorStripTree c) (sensorStripTreeF cs)
end

mutual
/-- No node of the tree carries the literal key sensor-star. -/
def noSensorStarKey : PObj → Bool
  | .node d cs => !(d.any (fun kv => kv.1 == "sensor*".data)) && noSensorStarKeyF cs
def noSensorStarKeyF : PForest → Bool
  | .nil => true
  | .cons c cs => noSensorStarKey c && noSensorStarKeyF cs
end

/-! ## getNearestCommonParent -/

/-- An object of a parent-pointer tree, carried together with its ancestor
chain; the chain is finite because the spec assumes parent chains are acyclic
and terminate at a single root.  Ids stand for the unique object names. -/
inductive BObj where
  | root : Nat → BObj
  | child : Nat → BObj → BObj
deriving DecidableEq, Repr

def BObj.parent : BObj → Option BObj
  | .root _ => none
  | .child _ p => some p

def BObj.rootOf : BObj → BObj
  | .root i => .root i
  | .child _ p => p.rootOf

/-- Python set.add on the model of the inter_objects set (insertion order). -/
def setAdd (l : List BObj) (x : BObj) : List BObj :=
  if x ∈ l then l else l ++ [x]

/-- The inner while loop: starting from obj, ascend while there is a parent
and the parent is not the candidate, adding each visited object to the set. -/
def ascendTo (cand : BObj) : BObj → List BObj → BObj × List BObj
  | .root i, inter => (.root i, inter)
  | .child i p, inter =>
    if p = cand then (.child i p, inter) else ascendTo cand p (setAdd inter p)

/-- The for loop over the other objects: each must reach the candidate parent,
otherwise in_all is False and the loop breaks. -/
def checkRest (cand : BObj) : List BObj → List BObj → Bool × List BObj
  | [], inter => (true, inter)
  | obj :: rest, inter =>
    let oi := ascendTo cand obj inter
    if oi.1.parent = some cand then checkRest cand rest oi.2 else (false, oi.2)

/-- The outer while loop: while not in_all and the candidate has a parent, go
up the anchor branch and test all other branches against the candidate. -/
def lcaSearch (rest : List BObj) : BObj → List BObj → Option (BObj × List BObj)
  | .root _, _ => none
  | .child _ p, inter =>
    let inter1 := setAdd inter p
    let r := checkRest p rest inter1
    if r.1 then some (p, r.2) else lcaSearch rest p r.2

/-- getNearestCommonParent(objs): the first object is the anchor; on success
the candidate is removed from the visited set and returned with it.  Python
raises IndexError on an empty list (objs[0]); the claims never pass one. -/
def getNearestCommonParent : List BObj → Option (BObj × List BObj)
  | [] => none
  | anchor :: rest =>
    match lcaSearch rest anchor [] with
    | none => none
    | some (p, inter) => some (p, inter.erase p)

/-! ## Concrete scenes used as inputs by the theorems below -/

/-- A single parentless link carrying model metadata. -/
def sceneSingle : Scene :=
  [⟨0, none, "link", [("modelname", "robot")], MatE.base 0, true⟩]

/-- A non-link root with one link child attached. -/
def sceneNonlinkRoot : Scene :=
  [⟨0, none, "empty", [], MatE.base 0, false⟩,
   ⟨1, some 0, "link", [], MatE.base 1, false⟩]

/-- A link root, a non-link node between, a link leaf. -/
def sceneJointBetween : Scene :=
  [⟨0, none, "link", [], MatE.base 0, false⟩,
   ⟨1, some 0, "joint", [], MatE.base 1, false⟩,
   ⟨2, some 1, "link", [], MatE.base 2, false⟩]

/-- A three-link chain 0 <- 1 <- 2. -/
def sceneChain3 : Scene :=
  [⟨0, none, "link", [], MatE.base 0, false⟩,
   ⟨1, some 0, "link", [], MatE.base 1, false⟩,
   ⟨2, some 1, "link", [], MatE.base 2, false⟩]

/-- Two interfaces below a submodel root: parent interface 0, child
interface 1, submodel 2. -/
def sceneInterfacePair : Scene :=
  [⟨0, some 2, "interface", [], MatE.base 5, true⟩,
   ⟨1, some 2, "interface", [], MatE.base 6, true⟩,
   ⟨2, none, "submodel", [], MatE.base 7, false⟩]

/-- The scene produced by connectInterfaces on sceneInterfacePair with the
default transform (used as the concrete witness output). -/
def sceneInterfacePairConnected : Scene :=
  [⟨0, some 2, "interface", [], MatE.scaleApplied (MatE.base 5), false⟩,
   ⟨1, some 0, "interface", [],
    MatE.mul (MatE.mul (MatE.translationOf (MatE.scaleApplied (MatE.base 5)))
      (MatE.rotationOf (MatE.scaleApplied (MatE.base 5)))) MatE.defaultConnectRot, false⟩,
   ⟨2, some 1, "submodel", [], MatE.base 7, false⟩]

/-- A parent interface and a childless child interface. -/
def sceneLoneInterface : Scene :=
  [⟨0, none, "interface", [], MatE.base 0, true⟩,
   ⟨1, some 0, "interface", [], MatE.base 1, true⟩]

/-! ## Basic lemmas about the scene embedding -/

theorem findObj_cons (o : SObj) (s : Scene) (j : Nat) :
    findObj (o :: s) j = if o.oid = j then some o else findObj s j := by
  by_cases h : o.oid = j
  · rw [if_pos h]; exact List.find?_cons_of_pos _ (by simp [h])
  · rw [if_neg h]; exact List.find?_cons_of_neg _ (by simp [h])

theorem updObj_cons (o : SObj) (s : Scene) (i : Nat) (f : SObj → SObj) :
    updObj (o :: s) i f = (if o.oid = i then f o else o) :: updObj s i f := by
  by_cases h : o.oid = i <;> simp [updObj, h]

theorem idsOf_cons (o : SObj) (s : Scene) : idsOf (o :: s) = o.oid :: idsOf s := rfl

theorem findObj_updObj (s : Scene) (i j : Nat) (f : SObj → SObj)
    (hf : ∀ o, (f o).oid = o.oid) :
    findObj (updObj s i f) j = if i = j then (findObj s j).map f else findObj s j := by
  induction s with
  | nil => simp [findObj, updObj]
  | cons o s ih =>
    rw [updObj_cons]
    by_cases hoi : o.oid = i
    · by_cases hoj : o.oid = j
      · have hij : i = j := by rw [← hoi, hoj]
        have hfj : (f o).oid = j := (hf o).trans hoj
        simp [findObj_cons, hoi, hoj, hij, hfj]
      · have hij : ¬ i = j := by rw [← hoi]; exact hoj
        have hfj : ¬ (f o).oid = j := by rw [hf o]; exact hoj
        simp [findObj_cons, hoi, hoj, hij, hfj, ih]
    · by_cases hoj : o.oid = j
      · have hij : ¬ i = j := fun hc => hoi (hoj.trans hc.symm)
        have hji : ¬ j = i := fun hc => hij hc.symm
        simp [findObj_cons, hoi, hoj, hij, hji]
      · simp [findObj_cons, hoi, hoj, ih]

theorem idsOf_updObj (s : Scene) (i : Nat) (f : SObj → SObj)
    (hf : ∀ o, (f o).oid = o.oid) :
    idsOf (updObj s i f) = idsOf s := by
  induction s with
  | nil => rfl
  | cons o s ih =>
    rw [updObj_cons]
    by_cases h : o.oid = i
    · rw [if_pos h, idsOf_cons, idsOf_cons, hf, ih]
    · rw [if_neg h, idsOf_cons, idsOf_cons, ih]

theorem findObj_isSome_iff (s : Scene) (i : Nat) :
    (findObj s i).isSome = true ↔ i ∈ idsOf s := by
  induction s with
  | nil => simp [findObj, idsOf]
  | cons o s ih =>
    by_cases h : o.oid = i
    · simp [findObj_cons, idsOf_cons, h]
    · have h2 : ¬ i = o.oid := fun hc => h hc.symm
      simp [findObj_cons, idsOf_cons, h, h2, ih]

theorem parentOf_updObj_keep (s : Scene) (i j : Nat) (f : SObj → SObj)
    (hf : ∀ o, (f o).oid = o.oid) (hp : ∀ o, (f o).parent = o.parent) :
    parentOf (updObj s i f) j = parentOf s j := by
  rw [parentOf, parentOf, findObj_updObj s i j f hf]
  split
  · cases findObj s j <;> simp [hp]
  · rfl

theorem tagOf_updObj_keep (s : Scene) (i j : Nat) (f : SObj → SObj)
    (hf : ∀ o, (f o).oid = o.oid) (hp : ∀ o, (f o).phobostype = o.phobostype) :
    tagOf (updObj s i f) j = tagOf s j := by
  rw [tagOf, tagOf, findObj_updObj s i j f hf]
  split
  · cases findObj s j <;> simp [hp]
  · rfl

theorem matrixOf_updObj_keep (s : Scene) (i j : Nat) (f : SObj → SObj)
    (hf : ∀ o, (f o).oid = o.oid) (hp : ∀ o, (f o).matrix_world = o.matrix_world) :
    matrixOf (updObj s i f) j = matrixOf s j := by
  rw [matrixOf, matrixOf, findObj_updObj s i j f hf]
  split
  · cases findObj s j <;> simp [hp]
  · rfl

theorem showNameOf_updObj_keep (s : Scene) (i j : Nat) (f : SObj → SObj)
    (hf : ∀ o, (f o).oid = o.oid) (hp : ∀ o, (f o).show_name = o.show_name) :
    showNameOf (updObj s i f) j = showNameOf s j := by
  rw [showNameOf, showNameOf, findObj_updObj s i j f hf]
  split
  · cases findObj s j <;> simp [hp]
  · rfl

theorem parentOf_setParent_self (s : Scene) (i : Nat) (p : Option Nat)
    (h : i ∈ idsOf s) : parentOf (setParent s i p) i = p := by
  rw [setParent, parentOf,
      findObj_updObj s i i (fun o => { o with parent := p }) (fun o => rfl), if_pos rfl]
  rw [← findObj_isSome_iff] at h
  cases hfo : findObj s i with
  | none => rw [hfo] at h; simp at h
  | some o => simp

theorem parentOf_setParent_none_self (s : Scene) (i : Nat) :
    parentOf (setParent s i none) i = none := by
  rw [setParent, parentOf,
      findObj_updObj s i i (fun o => { o with parent := none }) (fun o => rfl), if_pos rfl]
  cases findObj s i <;> simp

theorem parentOf_setParent_other (s : Scene) (i j : Nat) (p : Option Nat)
    (h : ¬ i = j) : parentOf (setParent s i p) j = parentOf s j := by
  rw [setParent, parentOf,
      findObj_updObj s i j (fun o => { o with parent := p }) (fun o => rfl), if_neg h, parentOf]

theorem tagOf_setParent (s : Scene) (i j : Nat) (p : Option Nat) :
    tagOf (setParent s i p) j = tagOf s j :=
  tagOf_updObj_keep s i j _ (fun _ => rfl) (fun _ => rfl)

theorem matrixOf_setParent (s : Scene) (i j : Nat) (p : Option Nat) :
    matrixOf (setParent s i p) j = matrixOf s j :=
  matrixOf_updObj_keep s i j _ (fun _ => rfl) (fun _ => rfl)

theorem showNameOf_setParent (s : Scene) (i j : Nat) (p : Option Nat) :
    showNameOf (setParent s i p) j = showNameOf s j :=
  showNameOf_updObj_keep s i j _ (fun _ => rfl) (fun _ => rfl)

theorem idsOf_setParent (s : Scene) (i : Nat) (p : Option Nat) :
    idsOf (setParent s i p) = idsOf s :=
  idsOf_updObj s i _ (fun _ => rfl)

/-! ## C1: removeSubmodel -/

/-- C1 (code_bug evidence): with interfaces left at its default True, removing
an existing submodel group when no matching interface group exists does delete
the submodel group (the remaining group list is empty) yet the function falls
through to its final return False, contradicting its docstring, the spec and
the claim, which all say True is returned when groups have been removed. -/
theorem removeSubmodel_removes_group_but_returns_false :
    removeSubmodel ["mech:foo"] "foo" "mech" "" true = ([], false) := by decide

/-! ## C9: instantiateSubmodel on a missing submodel group -/

/-- C9 (code_bug evidence): when no group matches the submodel name, the
function logs the error as the claim says, but then immediately dereferences
the still-None submodel (group_instance_add(group=submodel.name)), raising
AttributeError instead of continuing or returning a sentinel. -/
theorem instantiateSubmodel_missing_group_raises :
    instantiateSubmodel ["arm:left"] "mech:foo" "inst" =
      (["ERROR: Selected submodel is not defined.",
        "INFO: No interfaces defined for this submodel."],
       .error "AttributeError") := by decide

/-! ## C2: getPropertiesSubset -/

/-- C2 counterexample: on an object whose only custom property key is
visual/visual/x, the claim says the result key is visual/x (only the leading
prefix stripped), but key.replace removes every occurrence of visual/ and the
code returns the key x. -/
theorem getPropertiesSubset_strip_counterexample :
    getPropertiesSubset [("visual/visual/x".data, 0)] [] (some "visual".data) ≠
      stripLeadingOnly [("visual/visual/x".data, 0)] "visual".data := by decide

/-! ## C3: removeProperties -/

/-- C3 counterexample: when the object carries the literal key sensor-star,
the exact-match branch of the props loop fires first and deletes only that
key, leaving the key sensor1 behind although it starts with sensor; the claim
says every key starting with sensor is deleted. -/
theorem removeProperties_literal_star_key_counterexample :
    (removeProperties ["sensor*".data] false
        (PObj.node [("sensor*".data, 0), ("sensor1".data, 1)] PForest.nil)).propsOf ≠
      sensorFilter [("sensor*".data, 0), ("sensor1".data, 1)] := by decide

/-! ## C5: restructureKinematicTree is a no-op on a parentless link -/

/-- C5: when the designated new root has no parent the function logs and
returns before touching the scene: no parent edge, transform or custom
property of any node changes. -/
theorem restructureKinematicTree_noop_when_root (s : Scene) (x : Nat)
    (rootArg : Option Nat) (h : parentOf s x = none) :
    restructureKinematicTree s x rootArg = s := by
  simp only [restructureKinematicTree, h]

theorem restructureKinematicTree_noop_when_root_witness :
    parentOf sceneSingle 0 = none ∧
      restructureKinematicTree sceneSingle 0 none = sceneSingle :=
  ⟨by decide, restructureKinematicTree_noop_when_root sceneSingle 0 none (by decide)⟩

/-! ## C10: disconnectInterfaces with a childless child interface -/

/-- C10: after the child interface is unparented, if it has no children the
local variable root is never assigned, so its first use raises an unhandled
(UnboundLocal)NameError; at that moment the child interface is already
detached (its parent pointer is cleared). -/
theorem disconnectInterfaces_no_children_name_error (s : Scene) (parentId childId : Nat)
    (h : childrenOf (setParent s childId none) childId = []) :
    disconnectInterfaces s parentId childId none =
        .error ("NameError", setParent s childId none) ∧
      parentOf (setParent s childId none) childId = none := by
  refine ⟨?_, parentOf_setParent_none_self s childId⟩
  simp only [disconnectInterfaces, h, pickNewRoot]

theorem disconnectInterfaces_no_children_name_error_witness :
    childrenOf (setParent sceneLoneInterface 1 none) 1 = [] ∧
      disconnectInterfaces sceneLoneInterface 0 1 none =
        .error ("NameError", setParent sceneLoneInterface 1 none) :=
  ⟨by decide, (disconnectInterfaces_no_children_name_error sceneLoneInterface 0 1 (by decide)).1⟩

/-! ## C4: getNearestCommonParent -/

theorem ascendTo_parent_ne (cand : BObj) (o : BObj) (inter : List BObj)
    (h : cand.rootOf ≠ o.rootOf) : ((ascendTo cand o inter).1).parent ≠ some cand := by
  induction o generalizing inter with
  | root i => simp [ascendTo, BObj.parent]
  | child i p ih =>
    rw [ascendTo]
    by_cases hpc : p = cand
    · exfalso
      apply h
      rw [hpc, BObj.rootOf]
    · rw [if_neg hpc]
      exact ih _ (by rw [BObj.rootOf] at h; exact h)

theorem lcaSearch_disjoint (y : BObj) (cand : BObj) (inter : List BObj)
    (h : cand.rootOf ≠ y.rootOf) : lcaSearch [y] cand inter = none := by
  induction cand generalizing inter with
  | root i => rfl
  | child i p ih =>
    rw [lcaSearch]
    have hp : p.rootOf ≠ y.rootOf := by rw [BObj.rootOf] at h; exact h
    have hasc := ascendTo_parent_ne p y (setAdd inter p) hp
    rw [checkRest]
    simp only [checkRest, if_neg hasc]
    exact ih _ hp

/-- C4: on [B, C] in the tree A with children B and C the search returns A
(no intermediate nodes are visited), and on two objects of disjoint trees
(different roots) it returns the None sentinel. -/
theorem getNearestCommonParent_lca_and_disjoint :
    (∀ i j k : Nat,
      getNearestCommonParent [BObj.child j (BObj.root i), BObj.child k (BObj.root i)] =
        some (BObj.root i, [])) ∧
    (∀ x y : BObj, x.rootOf ≠ y.rootOf → getNearestCommonParent [x, y] = none) := by
  constructor
  · intro i j k
    simp [getNearestCommonParent, lcaSearch, setAdd, checkRest, ascendTo, BObj.parent]
  · intro x y h
    rw [getNearestCommonParent, lcaSearch_disjoint y x [] h]

/-! ## Preservation lemmas for the scene operations -/

theorem parentOf_setMatrix (s : Scene) (i : Nat) (m : MatE) (j : Nat) :
    parentOf (setMatrix s i m) j = parentOf s j :=
  parentOf_updObj_keep s i j _ (fun _ => rfl) (fun _ => rfl)

theorem parentOf_setShowName (s : Scene) (i : Nat) (b : Bool) (j : Nat) :
    parentOf (setShowName s i b) j = parentOf s j :=
  parentOf_updObj_keep s i j _ (fun _ => rfl) (fun _ => rfl)

theorem parentOf_applyScaleOp (s : Scene) (i j : Nat) :
    parentOf (applyScaleOp s i) j = parentOf s j :=
  parentOf_updObj_keep s i j _ (fun _ => rfl) (fun _ => rfl)

theorem parentOf_setProp (s : Scene) (i : Nat) (k v : String) (j : Nat) :
    parentOf (setProp s i k v) j = parentOf s j :=
  parentOf_updObj_keep s i j _ (fun _ => rfl) (fun _ => rfl)

theorem parentOf_delProp (s : Scene) (i : Nat) (k : String) (j : Nat) :
    parentOf (delProp s i k) j = parentOf s j :=
  parentOf_updObj_keep s i j _ (fun _ => rfl) (fun _ => rfl)

theorem parentOf_transferProp (s : Scene) (src dst : Nat) (k : String) (j : Nat) :
    parentOf (transferProp s src dst k) j = parentOf s j := by
  unfold transferProp
  cases getProp s src k with
  | none => rfl
  | some v => rw [parentOf_delProp, parentOf_setProp]

theorem tagOf_setProp (s : Scene) (i : Nat) (k v : String) (j : Nat) :
    tagOf (setProp s i k v) j = tagOf s j :=
  tagOf_updObj_keep s i j _ (fun _ => rfl) (fun _ => rfl)

theorem tagOf_delProp (s : Scene) (i : Nat) (k : String) (j : Nat) :
    tagOf (delProp s i k) j = tagOf s j :=
  tagOf_updObj_keep s i j _ (fun _ => rfl) (fun _ => rfl)

theorem tagOf_transferProp (s : Scene) (src dst : Nat) (k : String) (j : Nat) :
    tagOf (transferProp s src dst k) j = tagOf s j := by
  unfold transferProp
  cases getProp s src k with
  | none => rfl
  | some v => rw [tagOf_delProp, tagOf_setProp]

theorem matrixOf_setProp (s : Scene) (i : Nat) (k v : String) (j : Nat) :
    matrixOf (setProp s i k v) j = matrixOf s j :=
  matrixOf_updObj_keep s i j _ (fun _ => rfl) (fun _ => rfl)

theorem matrixOf_delProp (s : Scene) (i : Nat) (k : String) (j : Nat) :
    matrixOf (delProp s i k) j = matrixOf s j :=
  matrixOf_updObj_keep s i j _ (fun _ => rfl) (fun _ => rfl)

theorem matrixOf_transferProp (s : Scene) (src dst : Nat) (k : String) (j : Nat) :
    matrixOf (transferProp s src dst k) j = matrixOf s j := by
  unfold transferProp
  cases getProp s src k with
  | none => rfl
  | some v => rw [matrixOf_delProp, matrixOf_setProp]

theorem showNameOf_setProp (s : Scene) (i : Nat) (k v : String) (j : Nat) :
    showNameOf (setProp s i k v) j = showNameOf s j :=
  showNameOf_updObj_keep s i j _ (fun _ => rfl) (fun _ => rfl)

theorem showNameOf_delProp (s : Scene) (i : Nat) (k : String) (j : Nat) :
    showNameOf (delProp s i k) j = showNameOf s j :=
  showNameOf_updObj_keep s i j _ (fun _ => rfl) (fun _ => rfl)

theorem showNameOf_transferProp (s : Scene) (src dst : Nat) (k : String) (j : Nat) :
    showNameOf (transferProp s src dst k) j = showNameOf s j := by
  unfold transferProp
  cases getProp s src k with
  | none => rfl
  | some v => rw [showNameOf_delProp, showNameOf_setProp]

theorem idsOf_setProp (s : Scene) (i : Nat) (k v : String) :
    idsOf (setProp s i k v) = idsOf s :=
  idsOf_updObj s i _ (fun _ => rfl)

theorem idsOf_delProp (s : Scene) (i : Nat) (k : String) :
    idsOf (delProp s i k) = idsOf s :=
  idsOf_updObj s i _ (fun _ => rfl)

theorem idsOf_transferProp (s : Scene) (src dst : Nat) (k : String) :
    idsOf (transferProp s src dst k) = idsOf s := by
  unfold transferProp
  cases getProp s src k with
  | none => rfl
  | some v => rw [idsOf_delProp, idsOf_setProp]

/-! ## unparentAll and reparentChain -/

theorem unparentAll_cons (s : Scene) (i : Nat) (c : List Nat) :
    unparentAll s (i :: c) = unparentAll (setParent s i none) c := rfl

theorem parentOf_unparentAll (c : List Nat) : ∀ (s : Scene) (j : Nat),
    parentOf (unparentAll s c) j = if j ∈ c then none else parentOf s j := by
  induction c with
  | nil => intro s j; simp [unparentAll]
  | cons i c ih =>
    intro s j
    rw [unparentAll_cons, ih]
    by_cases hj : j ∈ i :: c
    · rw [if_pos hj]
      rcases List.mem_cons.mp hj with h1 | h2
      · by_cases hjc : j ∈ c
        · rw [if_pos hjc]
        · rw [if_neg hjc]
          subst h1
          exact parentOf_setParent_none_self s j
      · rw [if_pos h2]
    · have hji : ¬ i = j := fun hc => hj (hc ▸ List.mem_cons_self i c)
      have hjc : ¬ j ∈ c := fun hc => hj (List.mem_cons_of_mem _ hc)
      rw [if_neg hj, if_neg hjc, parentOf_setParent_other s i j none hji]

theorem tagOf_unparentAll (c : List Nat) : ∀ (s : Scene) (j : Nat),
    tagOf (unparentAll s c) j = tagOf s j := by
  induction c with
  | nil => intro s j; rfl
  | cons i c ih => intro s j; rw [unparentAll_cons, ih, tagOf_setParent]

theorem matrixOf_unparentAll (c : List Nat) : ∀ (s : Scene) (j : Nat),
    matrixOf (unparentAll s c) j = matrixOf s j := by
  induction c with
  | nil => intro s j; rfl
  | cons i c ih => intro s j; rw [unparentAll_cons, ih, matrixOf_setParent]

theorem showNameOf_unparentAll (c : List Nat) : ∀ (s : Scene) (j : Nat),
    showNameOf (unparentAll s c) j = showNameOf s j := by
  induction c with
  | nil => intro s j; rfl
  | cons i c ih => intro s j; rw [unparentAll_cons, ih, showNameOf_setParent]

theorem idsOf_unparentAll (c : List Nat) : ∀ (s : Scene),
    idsOf (unparentAll s c) = idsOf s := by
  induction c with
  | nil => intro s; rfl
  | cons i c ih => intro s; rw [unparentAll_cons, ih, idsOf_setParent]

theorem prevIn_eq_none_of_not_mem_tail : ∀ (c : List Nat) (j : Nat),
    j ∉ c.drop 1 → prevIn c j = none := by
  intro c
  match c with
  | [] => intro j _; rfl
  | [a] => intro j _; rfl
  | a :: b :: rest =>
    intro j hj
    rw [List.drop_one, List.tail_cons] at hj
    have hbj : ¬ b = j := fun hc => hj (hc ▸ List.mem_cons_self b rest)
    rw [prevIn, if_neg hbj]
    exact prevIn_eq_none_of_not_mem_tail (b :: rest) j
      (by rw [List.drop_one, List.tail_cons]; exact fun hc => hj (List.mem_cons_of_mem _ hc))

theorem prevIn_ne_none_of_mem_tail : ∀ (c : List Nat) (j : Nat),
    j ∈ c.drop 1 → prevIn c j ≠ none := by
  intro c
  match c with
  | [] => intro j hj; simp at hj
  | [a] => intro j hj; simp at hj
  | a :: b :: rest =>
    intro j hj
    rw [List.drop_one, List.tail_cons] at hj
    by_cases hbj : b = j
    · rw [prevIn, if_pos hbj]; exact Option.some_ne_none a
    · rw [prevIn, if_neg hbj]
      exact prevIn_ne_none_of_mem_tail (b :: rest) j
        (by
          rw [List.drop_one, List.tail_cons]
          rcases List.mem_cons.mp hj with h1 | h2
          · exact absurd h1.symm hbj
          · exact h2)

theorem parentOf_reparentChain : ∀ (c : List Nat) (s : Scene) (j : Nat),
    c.Nodup → (∀ i ∈ c, i ∈ idsOf s) →
    parentOf (reparentChain s c) j =
      (match prevIn c j with
       | some a => some a
       | none => parentOf s j) := by
  intro c
  induction c with
  | nil => intro s j _ _; rfl
  | cons a c ih =>
    intro s j hnd hmem
    match c with
    | [] => rfl
    | b :: rest =>
      rw [reparentChain]
      rw [ih (setParent s b (some a)) j (List.nodup_cons.mp hnd).2
          (fun i hi => by
            rw [idsOf_setParent]
            exact hmem i (List.mem_cons_of_mem _ hi))]
      by_cases hbj : b = j
      · subst hbj
        have hbrest : b ∉ rest := by
          have := (List.nodup_cons.mp (List.nodup_cons.mp hnd).2).1
          exact this
        rw [prevIn_eq_none_of_not_mem_tail (b :: rest) b
            (by rw [List.drop_one, List.tail_cons]; exact hbrest)]
        rw [show prevIn (a :: b :: rest) b = some a from by rw [prevIn, if_pos rfl]]
        exact parentOf_setParent_self s b (some a) (hmem b (List.mem_cons_of_mem _ (List.mem_cons_self b rest)))
      · rw [show prevIn (a :: b :: rest) j = prevIn (b :: rest) j from by rw [prevIn, if_neg hbj]]
        cases prevIn (b :: rest) j with
        | some u => rfl
        | none => exact parentOf_setParent_other s b j (some a) hbj

theorem tagOf_reparentChain : ∀ (c : List Nat) (s : Scene) (j : Nat),
    tagOf (reparentChain s c) j = tagOf s j := by
  intro c
  induction c with
  | nil => intro s j; rfl
  | cons a c ih =>
    intro s j
    match c with
    | [] => rfl
    | b :: rest => rw [reparentChain, ih (setParent s b (some a)) j, tagOf_setParent]

theorem matrixOf_reparentChain : ∀ (c : List Nat) (s : Scene) (j : Nat),
    matrixOf (reparentChain s c) j = matrixOf s j := by
  intro c
  induction c with
  | nil => intro s j; rfl
  | cons a c ih =>
    intro s j
    match c with
    | [] => rfl
    | b :: rest => rw [reparentChain, ih (setParent s b (some a)) j, matrixOf_setParent]

theorem showNameOf_reparentChain : ∀ (c : List Nat) (s : Scene) (j : Nat),
    showNameOf (reparentChain s c) j = showNameOf s j := by
  intro c
  induction c with
  | nil => intro s j; rfl
  | cons a c ih =>
    intro s j
    match c with
    | [] => rfl
    | b :: rest => rw [reparentChain, ih (setParent s b (some a)) j, showNameOf_setParent]

theorem idsOf_reparentChain : ∀ (c : List Nat) (s : Scene),
    idsOf (reparentChain s c) = idsOf s := by
  intro c
  induction c with
  | nil => intro s; rfl
  | cons a c ih =>
    intro s
    match c with
    | [] => rfl
    | b :: rest => rw [reparentChain, ih (setParent s b (some a)), idsOf_setParent]

/-! ## Following an explicit parent chain -/

theorem isChainB_cons_cons (s : Scene) (i j : Nat) (rest : List Nat) :
    isChainB s (i :: j :: rest) = (parentOf s i == some j && isChainB s (j :: rest)) := rfl

theorem getRootAux_chain (s : Scene) : ∀ (P : List Nat) (fuel : Nat) (i r : Nat),
    isChainB s (i :: P) = true → (i :: P).getLast? = some r → parentOf s r = none →
    P.length ≤ fuel → getRootAux s fuel i = r := by
  intro P
  induction P with
  | nil =>
    intro fuel i r _ hlast hr _
    have hri : r = i := by
      have : some i = some r := by simpa using hlast
      exact (Option.some.inj this).symm
    subst hri
    cases fuel with
    | zero => rfl
    | succ fuel => rw [getRootAux, hr]
  | cons p P ih =>
    intro fuel i r hchain hlast hr hlen
    rw [isChainB_cons_cons, Bool.and_eq_true, beq_iff_eq] at hchain
    cases fuel with
    | zero => simp at hlen
    | succ fuel =>
      rw [getRootAux, hchain.1]
      exact ih fuel p r hchain.2 (by rwa [List.getLast?_cons_cons] at hlast) hr
        (Nat.le_of_succ_le_succ hlen)

theorem collectChainAux_chain (s : Scene) (r : Nat) :
    ∀ (M : List Nat) (fuel : Nat) (i : Nat) (acc : List Nat),
      isChainB s (i :: (M ++ [r])) = true → r ∉ M → M.length < fuel →
      collectChainAux s r fuel i acc =
        acc ++ M.filter (fun m => tagOf s m == some "link") := by
  intro M
  induction M with
  | nil =>
    intro fuel i acc hchain _ hfuel
    rw [show (i :: ([] ++ [r]) : List Nat) = i :: [r] from rfl, isChainB_cons_cons,
        Bool.and_eq_true, beq_iff_eq] at hchain
    cases fuel with
    | zero => simp at hfuel
    | succ fuel =>
      simp only [collectChainAux, hchain.1]
      simp
  | cons m M ih =>
    intro fuel i acc hchain hrm hfuel
    rw [show (i :: ((m :: M) ++ [r]) : List Nat) = i :: m :: (M ++ [r]) from rfl,
        isChainB_cons_cons, Bool.and_eq_true, beq_iff_eq] at hchain
    have hmr : ¬ m = r := fun hc => hrm (by rw [hc]; exact List.mem_cons_self r M)
    cases fuel with
    | zero => simp at hfuel
    | succ fuel =>
      simp only [collectChainAux, hchain.1]
      rw [if_neg hmr]
      rw [ih fuel m (acc ++ if tagOf s m == some "link" then [m] else []) hchain.2
          (fun hc => hrm (List.mem_cons_of_mem _ hc)) (Nat.lt_of_succ_lt_succ hfuel)]
      by_cases htag : tagOf s m == some "link"
      · simp [htag, List.filter_cons]
      · simp [htag, List.filter_cons]

theorem chain_length_le (s : Scene) (c : List Nat) (hnd : c.Nodup)
    (hmem : ∀ i ∈ c, i ∈ idsOf s) : c.length ≤ s.length := by
  have h1 : List.Subperm c (idsOf s) := List.subperm_of_subset hnd hmem
  have h2 := h1.length_le
  rwa [idsOf, List.length_map] at h2

/-! ## The parent-edge description of restructureKinematicTree -/

/-- The effect of restructureKinematicTree(x) (default root) on the parent
pointers, for a scene in which x sits on the parent chain
x, M..., r (r the parentless root, all distinct, all present): the collected
chain is x, the link-tagged members of M, then r; the head of the chain loses
its parent, every later chain member is parented to the chain member before
it, and every object outside the chain keeps its parent. -/
theorem restructure_parent_desc (s : Scene) (x r : Nat) (M : List Nat)
    (hchain : isChainB s (x :: (M ++ [r])) = true)
    (hnd : (x :: (M ++ [r])).Nodup)
    (hmem : ∀ i ∈ x :: (M ++ [r]), i ∈ idsOf s)
    (hlast : parentOf s r = none) (j : Nat) :
    parentOf (restructureKinematicTree s x none) j =
      (if j = x then none
       else
         match prevIn (x :: (M.filter (fun m => tagOf s m == some "link") ++ [r])) j with
         | some a => some a
         | none => parentOf s j) := by
  have hlen : (x :: (M ++ [r])).length ≤ s.length := chain_length_le s _ hnd hmem
  have hlen2 : M.length + 2 ≤ s.length := by simpa using hlen
  have hxp : ∃ p0, parentOf s x = some p0 := by
    cases M with
    | nil =>
      rw [show (x :: ([] ++ [r]) : List Nat) = x :: [r] from rfl, isChainB_cons_cons,
          Bool.and_eq_true, beq_iff_eq] at hchain
      exact ⟨r, hchain.1⟩
    | cons m M2 =>
      rw [show (x :: ((m :: M2) ++ [r]) : List Nat) = x :: m :: (M2 ++ [r]) from rfl,
          isChainB_cons_cons, Bool.and_eq_true, beq_iff_eq] at hchain
      exact ⟨m, hchain.1⟩
  obtain ⟨p0, hp0⟩ := hxp
  have hroot : getRoot s x = r := by
    rw [getRoot]
    refine getRootAux_chain s (M ++ [r]) s.length x r hchain ?_ hlast
      (by simpa using Nat.le_of_succ_le hlen2)
    rw [← List.cons_append]
    exact List.getLast?_concat _
  have hrm : r ∉ M := by
    have hnd2 : (M ++ [r]).Nodup := (List.nodup_cons.mp hnd).2
    have hdisj := List.disjoint_of_nodup_append hnd2
    exact fun hc => hdisj hc (List.mem_singleton.mpr rfl)
  have hcc : collectChain s x r =
      x :: (M.filter (fun m => tagOf s m == some "link") ++ [r]) := by
    rw [collectChain,
        collectChainAux_chain s r M s.length x [x] hchain hrm (by omega)]
    simp
  have hsub : List.Sublist (x :: (M.filter (fun m => tagOf s m == some "link") ++ [r]))
      (x :: (M ++ [r])) := by
    refine List.Sublist.cons₂ x ?_
    exact List.Sublist.append_right (List.filter_sublist M) [r]
  have hndc : (x :: (M.filter (fun m => tagOf s m == some "link") ++ [r])).Nodup :=
    hsub.nodup hnd
  have hmemc : ∀ i ∈ x :: (M.filter (fun m => tagOf s m == some "link") ++ [r]),
      i ∈ idsOf s := fun i hi => hmem i (List.Sublist.mem hi hsub)
  rw [restructureKinematicTree]
  simp only [hroot, hp0]
  rw [hcc]
  rw [parentOf_transferProp, parentOf_transferProp,
      parentOf_reparentChain _ _ _ hndc
        (fun i hi => by rw [idsOf_unparentAll]; exact hmemc i hi),
      parentOf_unparentAll]
  by_cases hjx : j = x
  · rw [if_pos hjx, hjx]
    have hjtail : x ∉
        (x :: (M.filter (fun m => tagOf s m == some "link") ++ [r])).drop 1 := by
      rw [List.drop_one, List.tail_cons]
      intro hc
      have hjfull : x ∈ M ++ [r] :=
        List.Sublist.mem hc (List.Sublist.append_right (List.filter_sublist M) [r])
      exact (List.nodup_cons.mp hnd).1 hjfull
    rw [prevIn_eq_none_of_not_mem_tail _ _ hjtail,
        if_pos (List.mem_cons_self x (M.filter (fun m => tagOf s m == some "link") ++ [r]))]
  · rw [if_neg hjx]
    cases hprev : prevIn (x :: (M.filter (fun m => tagOf s m == some "link") ++ [r])) j with
    | some a => rfl
    | none =>
      have hjnc : j ∉ x :: (M.filter (fun m => tagOf s m == some "link") ++ [r]) := by
        intro hc
        rcases List.mem_cons.mp hc with h1 | h2
        · exact hjx h1
        · exact prevIn_ne_none_of_mem_tail _ j
            (by rw [List.drop_one, List.tail_cons]; exact h2) hprev
      rw [if_neg hjnc]

/-! ## Unconditional preservation by restructureKinematicTree -/

theorem tagOf_restructure (s : Scene) (x : Nat) (ra : Option Nat) (j : Nat) :
    tagOf (restructureKinematicTree s x ra) j = tagOf s j := by
  cases hp : parentOf s x with
  | none => simp only [restructureKinematicTree, hp]
  | some p =>
    simp only [restructureKinematicTree, hp]
    rw [tagOf_transferProp, tagOf_transferProp, tagOf_reparentChain, tagOf_unparentAll]

theorem matrixOf_restructure (s : Scene) (x : Nat) (ra : Option Nat) (j : Nat) :
    matrixOf (restructureKinematicTree s x ra) j = matrixOf s j := by
  cases hp : parentOf s x with
  | none => simp only [restructureKinematicTree, hp]
  | some p =>
    simp only [restructureKinematicTree, hp]
    rw [matrixOf_transferProp, matrixOf_transferProp, matrixOf_reparentChain,
        matrixOf_unparentAll]

theorem showNameOf_restructure (s : Scene) (x : Nat) (ra : Option Nat) (j : Nat) :
    showNameOf (restructureKinematicTree s x ra) j = showNameOf s j := by
  cases hp : parentOf s x with
  | none => simp only [restructureKinematicTree, hp]
  | some p =>
    simp only [restructureKinematicTree, hp]
    rw [showNameOf_transferProp, showNameOf_transferProp, showNameOf_reparentChain,
        showNameOf_unparentAll]

theorem idsOf_restructure (s : Scene) (x : Nat) (ra : Option Nat) :
    idsOf (restructureKinematicTree s x ra) = idsOf s := by
  cases hp : parentOf s x with
  | none => simp only [restructureKinematicTree, hp]
  | some p =>
    simp only [restructureKinematicTree, hp]
    rw [idsOf_transferProp, idsOf_transferProp, idsOf_reparentChain, idsOf_unparentAll]

/-! ## C6: the chain collected and rewired by restructureKinematicTree -/

/-- C6 counterexample: in sceneNonlinkRoot the current root (id 0) is not
tagged link, so under the claim it is not collected and, lying outside the
collected chain, keeps its empty parent attachment; the code appends the root
to the chain unconditionally and reparents it under the new root. -/
theorem restructureKinematicTree_nonlink_root_counterexample :
    tagOf sceneNonlinkRoot 0 ≠ some "link" ∧ parentOf sceneNonlinkRoot 0 = none ∧
      parentOf (restructureKinematicTree sceneNonlinkRoot 1 none) 0 = some 1 := by decide

/-- C6 amended: restructureKinematicTree walks from x up to the current root
r, collecting x itself unconditionally, then only those strictly intermediate
ancestors tagged link, then the root unconditionally (whatever its tag); each
collected node becomes the parent of the one collected after it, x becomes
parentless, and every node outside the collected chain keeps its existing
parent attachment. -/
theorem restructureKinematicTree_chain_desc (s : Scene) (x r : Nat) (M : List Nat)
    (hchain : isChainB s (x :: (M ++ [r])) = true)
    (hnd : (x :: (M ++ [r])).Nodup)
    (hmem : ∀ i ∈ x :: (M ++ [r]), i ∈ idsOf s)
    (hlast : parentOf s r = none) (j : Nat) :
    parentOf (restructureKinematicTree s x none) j =
      (if j = x then none
       else
         match prevIn (x :: (M.filter (fun m => tagOf s m == some "link") ++ [r])) j with
         | some a => some a
         | none => parentOf s j) :=
  restructure_parent_desc s x r M hchain hnd hmem hlast j

theorem restructureKinematicTree_chain_desc_witness :
    (isChainB sceneChain3 (2 :: ([1] ++ [0])) = true ∧
     (2 :: ([1] ++ [0]) : List Nat).Nodup ∧
     (∀ i ∈ (2 :: ([1] ++ [0]) : List Nat), i ∈ idsOf sceneChain3) ∧
     parentOf sceneChain3 0 = none) ∧
      parentOf (restructureKinematicTree sceneChain3 2 none) 0 = some 1 :=
  ⟨⟨by decide, by decide, by decide, by decide⟩,
   (restructureKinematicTree_chain_desc sceneChain3 2 0 [1] (by decide) (by decide)
     (by decide) (by decide) 0).trans (by decide)⟩

/-! ## Index lemmas for chains, used for the double re-rooting -/

theorem isChainB_get (s : Scene) : ∀ (c : List Nat), isChainB s c = true →
    ∀ (k a b : Nat), getElem? c k = some a → getElem? c (k + 1) = some b → parentOf s a = some b := by
  intro c
  match c with
  | [] => intro _ k a b ha _; simp at ha
  | [i] =>
    intro _ k a b _ hb
    rcases k with _ | k <;> simp at hb
  | i :: j2 :: rest =>
    intro hchain k a b ha hb
    rw [isChainB_cons_cons, Bool.and_eq_true, beq_iff_eq] at hchain
    rcases k with _ | k
    · have hai : a = i := by
        rw [List.getElem?_cons_zero] at ha
        exact (Option.some.inj ha).symm
      have hbj : b = j2 := by
        rw [List.getElem?_cons_succ, List.getElem?_cons_zero] at hb
        exact (Option.some.inj hb).symm
      rw [hai, hbj]
      exact hchain.1
    · rw [List.getElem?_cons_succ] at ha hb
      exact isChainB_get s (j2 :: rest) hchain.2 k a b ha hb

theorem isChainB_of_get (s : Scene) : ∀ (c : List Nat),
    (∀ (k a b : Nat), getElem? c k = some a → getElem? c (k + 1) = some b → parentOf s a = some b) →
    isChainB s c = true := by
  intro c
  match c with
  | [] => intro _; rfl
  | [i] => intro _; rfl
  | i :: j2 :: rest =>
    intro h
    rw [isChainB_cons_cons, Bool.and_eq_true, beq_iff_eq]
    constructor
    · exact h 0 i j2 (by simp) (by simp)
    · refine isChainB_of_get s (j2 :: rest) ?_
      intro k a b ha hb
      exact h (k + 1) a b (by rwa [List.getElem?_cons_succ])
        (by rwa [List.getElem?_cons_succ])

theorem prevIn_eq_some_iff : ∀ (c : List Nat), c.Nodup → ∀ (j a : Nat),
    (prevIn c j = some a ↔ ∃ k, getElem? c k = some a ∧ getElem? c (k + 1) = some j) := by
  intro c
  match c with
  | [] =>
    intro _ j a
    constructor
    · intro h; exact Option.noConfusion h
    · rintro ⟨k, ha, _⟩; simp at ha
  | [i] =>
    intro _ j a
    constructor
    · intro h; exact Option.noConfusion h
    · rintro ⟨k, _, hb⟩
      rcases k with _ | k <;> simp at hb
  | a0 :: b0 :: rest =>
    intro hnd j a
    rw [prevIn]
    by_cases hb0 : b0 = j
    · rw [if_pos hb0]
      constructor
      · intro h
        have haa : a = a0 := (Option.some.inj h).symm
        exact ⟨0, by rw [haa]; simp, by rw [← hb0]; simp⟩
      · rintro ⟨k, ha, hj⟩
        rcases k with _ | k
        · rw [List.getElem?_cons_zero] at ha
          rw [Option.some.inj ha]
        · rw [List.getElem?_cons_succ, List.getElem?_cons_succ] at hj
          have hjmem : j ∈ rest := List.getElem?_mem hj
          have hb0rest : b0 ∉ rest := (List.nodup_cons.mp (List.nodup_cons.mp hnd).2).1
          exact absurd (by rw [hb0]; exact hjmem) hb0rest
    · rw [if_neg hb0]
      rw [prevIn_eq_some_iff (b0 :: rest) (List.nodup_cons.mp hnd).2 j a]
      constructor
      · rintro ⟨k, ha, hj⟩
        exact ⟨k + 1, by rwa [List.getElem?_cons_succ], by rwa [List.getElem?_cons_succ]⟩
      · rintro ⟨k, ha, hj⟩
        rcases k with _ | k
        · rw [List.getElem?_cons_succ, List.getElem?_cons_zero] at hj
          exact absurd (Option.some.inj hj) hb0
        · rw [List.getElem?_cons_succ] at ha
          rw [List.getElem?_cons_succ] at hj
          exact ⟨k, ha, hj⟩

/-! ## C7: double re-rooting -/

/-- C7 counterexample: in sceneJointBetween (link 0 <- joint 1 <- link 2) the
set of direct parent edges between link-tagged nodes is empty, but after
re-rooting at 2 and back at 0 the link 2 hangs directly below the link 0, so
the direct link-to-link edge set is not restored. -/
theorem restructure_involution_counterexample :
    linkEdges (restructureKinematicTree
        (restructureKinematicTree sceneJointBetween 2 none) 0 none) ≠
      linkEdges sceneJointBetween := by decide

/-- C7 amended: when every node on the path from x up to the current root r is
tagged link, re-rooting at x and then re-rooting back at r restores every
parent pointer of the scene (in particular the parent-child edges among
link-tagged nodes). -/
theorem restructure_involution_all_link (s : Scene) (x r : Nat) (M : List Nat)
    (hchain : isChainB s (x :: (M ++ [r])) = true)
    (hnd : (x :: (M ++ [r])).Nodup)
    (hmem : ∀ i ∈ x :: (M ++ [r]), i ∈ idsOf s)
    (hlast : parentOf s r = none)
    (hlink : ∀ i ∈ x :: (M ++ [r]), tagOf s i = some "link") (j : Nat) :
    parentOf (restructureKinematicTree (restructureKinematicTree s x none) r none) j =
      parentOf s j := by
  have hlen3 : (x :: (M ++ [r])).length = M.length + 2 := by simp
  have hfilter : M.filter (fun m => tagOf s m == some "link") = M :=
    List.filter_eq_self.mpr (fun m hm => by
      rw [hlink m (List.mem_cons_of_mem _ (List.mem_append_left _ hm))]
      exact beq_self_eq_true _)
  have desc1 : ∀ j2, parentOf (restructureKinematicTree s x none) j2 =
      (if j2 = x then none
       else match prevIn (x :: (M ++ [r])) j2 with
            | some a => some a
            | none => parentOf s j2) := by
    intro j2
    have hd := restructure_parent_desc s x r M hchain hnd hmem hlast j2
    rwa [hfilter] at hd
  have hids : idsOf (restructureKinematicTree s x none) = idsOf s :=
    idsOf_restructure s x none
  have htag : ∀ i, tagOf (restructureKinematicTree s x none) i = tagOf s i :=
    fun i => tagOf_restructure s x none i
  have hrevlist : (x :: (M ++ [r])).reverse = r :: (M.reverse ++ [x]) := by simp
  have hnd2 : (r :: (M.reverse ++ [x])).Nodup := by
    rw [← hrevlist]; exact List.nodup_reverse.mpr hnd
  have hmem2 : ∀ i ∈ r :: (M.reverse ++ [x]),
      i ∈ idsOf (restructureKinematicTree s x none) := by
    intro i hi
    rw [hids]
    apply hmem
    rw [← hrevlist] at hi
    exact List.mem_reverse.mp hi
  have hlast2 : parentOf (restructureKinematicTree s x none) x = none := by
    rw [desc1 x, if_pos rfl]
  have hchain2 : isChainB (restructureKinematicTree s x none)
      (r :: (M.reverse ++ [x])) = true := by
    rw [← hrevlist]
    apply isChainB_of_get
    intro k a b ha hb
    have hblen : k + 1 < (x :: (M ++ [r])).length := by
      by_contra hcon
      rw [List.getElem?_eq_none (by rw [List.length_reverse]; omega)] at hb
      exact Option.noConfusion hb
    have hklen : k < (x :: (M ++ [r])).length := Nat.lt_of_succ_lt hblen
    rw [List.getElem?_reverse hklen] at ha
    rw [List.getElem?_reverse hblen] at hb
    have harith : (x :: (M ++ [r])).length - 1 - (k + 1) + 1 =
        (x :: (M ++ [r])).length - 1 - k := by omega
    have hba : prevIn (x :: (M ++ [r])) a = some b := by
      rw [prevIn_eq_some_iff _ hnd]
      exact ⟨(x :: (M ++ [r])).length - 1 - (k + 1), hb, by rw [harith]; exact ha⟩
    have hax : ¬ a = x := by
      intro hc
      have h0 : getElem? (x :: (M ++ [r])) 0 = some a := by
        rw [hc]; exact List.getElem?_cons_zero
      have hinj := List.getElem?_inj
        (show (x :: (M ++ [r])).length - 1 - k < (x :: (M ++ [r])).length by omega)
        hnd (ha.trans h0.symm)
      omega
    rw [desc1 a, if_neg hax, hba]
  have hfilter2 : M.reverse.filter
      (fun m => tagOf (restructureKinematicTree s x none) m == some "link") =
      M.reverse := by
    apply List.filter_eq_self.mpr
    intro m hm
    rw [htag m, hlink m (List.mem_cons_of_mem _
      (List.mem_append_left _ (List.mem_reverse.mp hm)))]
    exact beq_self_eq_true _
  have desc2 : ∀ j2, parentOf (restructureKinematicTree
      (restructureKinematicTree s x none) r none) j2 =
      (if j2 = r then none
       else match prevIn (r :: (M.reverse ++ [x])) j2 with
            | some a => some a
            | none => parentOf (restructureKinematicTree s x none) j2) := by
    intro j2
    have hd := restructure_parent_desc (restructureKinematicTree s x none) r x
      M.reverse hchain2 hnd2 hmem2 hlast2 j2
    rwa [hfilter2] at hd
  rw [desc2 j]
  by_cases hjr : j = r
  · rw [if_pos hjr, hjr, hlast]
  · rw [if_neg hjr]
    cases hprev : prevIn (r :: (M.reverse ++ [x])) j with
    | some a =>
      have hpr : prevIn ((x :: (M ++ [r])).reverse) j = some a := by
        rw [hrevlist]; exact hprev
      rw [prevIn_eq_some_iff _ (List.nodup_reverse.mpr hnd)] at hpr
      obtain ⟨k, ha, hj2⟩ := hpr
      have hblen : k + 1 < (x :: (M ++ [r])).length := by
        by_contra hcon
        rw [List.getElem?_eq_none (by rw [List.length_reverse]; omega)] at hj2
        exact Option.noConfusion hj2
      have hklen : k < (x :: (M ++ [r])).length := Nat.lt_of_succ_lt hblen
      rw [List.getElem?_reverse hklen] at ha
      rw [List.getElem?_reverse hblen] at hj2
      have harith : (x :: (M ++ [r])).length - 1 - (k + 1) + 1 =
          (x :: (M ++ [r])).length - 1 - k := by omega
      exact (isChainB_get s (x :: (M ++ [r])) hchain
        ((x :: (M ++ [r])).length - 1 - (k + 1)) j a hj2 (by rw [harith]; exact ha)).symm
    | none =>
      have hjx : ¬ j = x := by
        intro hc
        have hx1 : getElem? ((x :: (M ++ [r])).reverse) (M.length + 1) = some x := by
          rw [List.getElem?_reverse (by rw [hlen3]; omega)]
          rw [show (x :: (M ++ [r])).length - 1 - (M.length + 1) = 0 from by omega]
          exact List.getElem?_cons_zero
        have hsome1 : ∃ w, getElem? (x :: (M ++ [r])) 1 = some w := by
          cases M with
          | nil => exact ⟨r, by simp⟩
          | cons m M2 => exact ⟨m, by simp⟩
        obtain ⟨w, hw⟩ := hsome1
        have hx0 : getElem? ((x :: (M ++ [r])).reverse) M.length = some w := by
          rw [List.getElem?_reverse (by rw [hlen3]; omega)]
          rw [show (x :: (M ++ [r])).length - 1 - M.length = 1 from by omega]
          exact hw
        have hps : prevIn ((x :: (M ++ [r])).reverse) j = some w := by
          rw [prevIn_eq_some_iff _ (List.nodup_reverse.mpr hnd)]
          exact ⟨M.length, hx0, by rw [hc]; exact hx1⟩
        rw [hrevlist] at hps
        rw [hps] at hprev
        exact Option.noConfusion hprev
      have hpc : prevIn (x :: (M ++ [r])) j = none := by
        cases hpc2 : prevIn (x :: (M ++ [r])) j with
        | none => rfl
        | some a =>
          exfalso
          rw [prevIn_eq_some_iff _ hnd] at hpc2
          obtain ⟨k, ha, hj2⟩ := hpc2
          have hblen : k + 1 < (x :: (M ++ [r])).length := by
            by_contra hcon
            rw [List.getElem?_eq_none (by omega)] at hj2
            exact Option.noConfusion hj2
          have hkne : k + 1 ≠ M.length + 1 := by
            intro hke
            have hr2 : getElem? (x :: (M ++ [r])) (M.length + 1) = some r := by
              rw [← List.cons_append, List.getElem?_append_right (by simp)]
              simp
            rw [hke, hr2] at hj2
            exact hjr (Option.some.inj hj2).symm
          have hk2 : k + 2 < (x :: (M ++ [r])).length := by
            rw [hlen3]
            rw [hlen3] at hblen
            omega
          have hv : getElem? (x :: (M ++ [r])) (k + 2) =
              some ((x :: (M ++ [r])).get ⟨k + 2, hk2⟩) := by
            rw [List.getElem?_eq_getElem hk2, List.get_eq_getElem]
          have hjrev : getElem? ((x :: (M ++ [r])).reverse)
              ((x :: (M ++ [r])).length - 2 - k) = some j := by
            rw [List.getElem?_reverse (by omega)]
            rw [show (x :: (M ++ [r])).length - 1 -
                ((x :: (M ++ [r])).length - 2 - k) = k + 1 from by omega]
            exact hj2
          have hvrev : getElem? ((x :: (M ++ [r])).reverse)
              ((x :: (M ++ [r])).length - 3 - k) =
              some ((x :: (M ++ [r])).get ⟨k + 2, hk2⟩) := by
            rw [List.getElem?_reverse (by omega)]
            rw [show (x :: (M ++ [r])).length - 1 -
                ((x :: (M ++ [r])).length - 3 - k) = k + 2 from by omega]
            exact hv
          have hps : prevIn ((x :: (M ++ [r])).reverse) j =
              some ((x :: (M ++ [r])).get ⟨k + 2, hk2⟩) := by
            rw [prevIn_eq_some_iff _ (List.nodup_reverse.mpr hnd)]
            refine ⟨(x :: (M ++ [r])).length - 3 - k, hvrev, ?_⟩
            rw [show (x :: (M ++ [r])).length - 3 - k + 1 =
                (x :: (M ++ [r])).length - 2 - k from by omega]
            exact hjrev
          rw [hrevlist] at hps
          rw [hps] at hprev
          exact Option.noConfusion hprev
      rw [desc1 j, if_neg hjx, hpc]

theorem restructure_involution_all_link_witness :
    (isChainB sceneChain3 (2 :: ([1] ++ [0])) = true ∧
     (2 :: ([1] ++ [0]) : List Nat).Nodup ∧
     (∀ i ∈ (2 :: ([1] ++ [0]) : List Nat), i ∈ idsOf sceneChain3) ∧
     parentOf sceneChain3 0 = none ∧
     (∀ i ∈ (2 :: ([1] ++ [0]) : List Nat), tagOf sceneChain3 i = some "link")) ∧
      parentOf (restructureKinematicTree
          (restructureKinematicTree sceneChain3 2 none) 0 none) 2 =
        parentOf sceneChain3 2 :=
  ⟨⟨by decide, by decide, by decide, by decide, by decide⟩,
   restructure_involution_all_link sceneChain3 2 0 [1] (by decide) (by decide)
     (by decide) (by decide) (by decide) 2⟩

/-! ## C8: connectInterfaces with the default transform -/

theorem idsOf_applyScaleOp (s : Scene) (i : Nat) :
    idsOf (applyScaleOp s i) = idsOf s :=
  idsOf_updObj s i _ (fun _ => rfl)

theorem idsOf_setMatrix (s : Scene) (i : Nat) (m : MatE) :
    idsOf (setMatrix s i m) = idsOf s :=
  idsOf_updObj s i _ (fun _ => rfl)

theorem idsOf_setShowName (s : Scene) (i : Nat) (b : Bool) :
    idsOf (setShowName s i b) = idsOf s :=
  idsOf_updObj s i _ (fun _ => rfl)

theorem matrixOf_applyScaleOp_other (s : Scene) (i j : Nat) (h : ¬ i = j) :
    matrixOf (applyScaleOp s i) j = matrixOf s j := by
  rw [applyScaleOp, matrixOf,
      findObj_updObj s i j
        (fun o => { o with matrix_world := MatE.scaleApplied o.matrix_world })
        (fun _ => rfl),
      if_neg h, matrixOf]

theorem matrixOf_applyScaleOp_self (s : Scene) (i : Nat) (mm : MatE)
    (h : matrixOf s i = some mm) :
    matrixOf (applyScaleOp s i) i = some (MatE.scaleApplied mm) := by
  rw [applyScaleOp, matrixOf,
      findObj_updObj s i i
        (fun o => { o with matrix_world := MatE.scaleApplied o.matrix_world })
        (fun _ => rfl),
      if_pos rfl]
  rw [matrixOf] at h
  cases hf : findObj s i with
  | none => rw [hf] at h; simp at h
  | some o =>
    rw [hf] at h
    simp at h
    simp [h]

theorem matrixOf_setMatrix_self (s : Scene) (i : Nat) (m : MatE)
    (h : i ∈ idsOf s) : matrixOf (setMatrix s i m) i = some m := by
  rw [setMatrix, matrixOf,
      findObj_updObj s i i (fun o => { o with matrix_world := m }) (fun _ => rfl),
      if_pos rfl]
  rw [← findObj_isSome_iff] at h
  cases hf : findObj s i with
  | none => rw [hf] at h; simp at h
  | some o => simp

theorem matrixOf_setShowName (s : Scene) (i : Nat) (b : Bool) (j : Nat) :
    matrixOf (setShowName s i b) j = matrixOf s j :=
  matrixOf_updObj_keep s i j _ (fun _ => rfl) (fun _ => rfl)

theorem showNameOf_applyScaleOp (s : Scene) (i j : Nat) :
    showNameOf (applyScaleOp s i) j = showNameOf s j :=
  showNameOf_updObj_keep s i j _ (fun _ => rfl) (fun _ => rfl)

theorem showNameOf_setMatrix (s : Scene) (i : Nat) (m : MatE) (j : Nat) :
    showNameOf (setMatrix s i m) j = showNameOf s j :=
  showNameOf_updObj_keep s i j _ (fun _ => rfl) (fun _ => rfl)

theorem showNameOf_setShowName_self (s : Scene) (i : Nat) (b : Bool)
    (h : i ∈ idsOf s) : showNameOf (setShowName s i b) i = some b := by
  rw [setShowName, showNameOf,
      findObj_updObj s i i (fun o => { o with show_name := b }) (fun _ => rfl),
      if_pos rfl]
  rw [← findObj_isSome_iff] at h
  cases hf : findObj s i with
  | none => rw [hf] at h; simp at h
  | some o => simp

theorem showNameOf_setShowName_other (s : Scene) (i : Nat) (b : Bool) (j : Nat)
    (h : ¬ i = j) : showNameOf (setShowName s i b) j = showNameOf s j := by
  rw [setShowName, showNameOf,
      findObj_updObj s i j (fun o => { o with show_name := b }) (fun _ => rfl),
      if_neg h, showNameOf]

theorem mem_idsOf_of_matrixOf (s : Scene) (i : Nat) (mm : MatE)
    (h : matrixOf s i = some mm) : i ∈ idsOf s := by
  rw [← findObj_isSome_iff]
  rw [matrixOf] at h
  cases hf : findObj s i with
  | none => rw [hf] at h; simp at h
  | some o => rfl

/-- C8: with no caller-supplied transform, connectInterfaces succeeds and in
the resulting scene the child interface is parented to the parent interface,
its world matrix is Translation(loc) * rot.to_matrix().to_4x4() *
defaultConnectRot, where loc and rot are the location and rotation of the
decomposition of the parent interface world matrix (transform_apply(scale)
changes only the scale component), and the name labels of both interfaces are
hidden. -/
theorem connectInterfaces_default_transform (s : Scene) (parentId childId cp : Nat)
    (pm : MatE) (s9 : Scene)
    (hpc : ¬ parentId = childId)
    (hchild : childId ∈ idsOf s)
    (hcp : parentOf s childId = some cp)
    (hpm : matrixOf s parentId = some pm)
    (hok : connectInterfaces s parentId childId none = .ok s9) :
    parentOf s9 childId = some parentId ∧
      matrixOf s9 childId = some (MatE.mul (MatE.mul
        (MatE.translationOf (MatE.scaleApplied pm))
        (MatE.rotationOf (MatE.scaleApplied pm))) MatE.defaultConnectRot) ∧
      showNameOf s9 parentId = some false ∧
      showNameOf s9 childId = some false := by
  have hcp2 : ¬ childId = parentId := fun hc => hpc hc.symm
  have hmemP : parentId ∈ idsOf s := mem_idsOf_of_matrixOf s parentId pm hpm
  have hmat1 : ∀ jj, matrixOf
      (if getRoot s childId ≠ cp then restructureKinematicTree s cp none else s) jj =
      matrixOf s jj := by
    intro jj
    by_cases hb : getRoot s childId ≠ cp
    · rw [if_pos hb, matrixOf_restructure]
    · rw [if_neg hb]
  have hshow1 : ∀ jj, showNameOf
      (if getRoot s childId ≠ cp then restructureKinematicTree s cp none else s) jj =
      showNameOf s jj := by
    intro jj
    by_cases hb : getRoot s childId ≠ cp
    · rw [if_pos hb, showNameOf_restructure]
    · rw [if_neg hb]
  have hids1 : idsOf
      (if getRoot s childId ≠ cp then restructureKinematicTree s cp none else s) =
      idsOf s := by
    by_cases hb : getRoot s childId ≠ cp
    · rw [if_pos hb, idsOf_restructure]
    · rw [if_neg hb]
  simp only [connectInterfaces, hcp] at hok
  cases hcs : parentOf
      (if getRoot s childId ≠ cp then restructureKinematicTree s cp none else s)
      childId with
  | some m =>
    rw [hcs] at hok
    injection hok with hs9
    subst hs9
    refine ⟨?_, ?_, ?_, ?_⟩
    · rw [parentOf_setShowName, parentOf_setShowName, parentOf_setMatrix]
      apply parentOf_setParent_self
      rw [idsOf_setParent, idsOf_setParent, idsOf_applyScaleOp, idsOf_applyScaleOp,
          hids1]
      exact hchild
    · rw [matrixOf_setShowName, matrixOf_setShowName, matrixOf_setMatrix_self]
      · rw [matrixOf_setParent, matrixOf_setParent, matrixOf_setParent,
            matrixOf_applyScaleOp_other _ _ _ hcp2,
            matrixOf_applyScaleOp_self _ _ pm (by rw [hmat1]; exact hpm)]
        rfl
      · rw [idsOf_setParent, idsOf_setParent, idsOf_setParent, idsOf_applyScaleOp,
            idsOf_applyScaleOp, hids1]
        exact hchild
    · rw [showNameOf_setShowName_other _ _ _ _ hcp2]
      apply showNameOf_setShowName_self
      rw [idsOf_setMatrix, idsOf_setParent, idsOf_setParent, idsOf_setParent,
          idsOf_applyScaleOp, idsOf_applyScaleOp, hids1]
      exact hmemP
    · apply showNameOf_setShowName_self
      rw [idsOf_setShowName, idsOf_setMatrix, idsOf_setParent, idsOf_setParent,
          idsOf_setParent, idsOf_applyScaleOp, idsOf_applyScaleOp, hids1]
      exact hchild
  | none =>
    rw [hcs] at hok
    injection hok with hs9
    subst hs9
    refine ⟨?_, ?_, ?_, ?_⟩
    · rw [parentOf_setShowName, parentOf_setShowName, parentOf_setMatrix]
      apply parentOf_setParent_self
      rw [idsOf_setParent, idsOf_applyScaleOp, idsOf_applyScaleOp, hids1]
      exact hchild
    · rw [matrixOf_setShowName, matrixOf_setShowName, matrixOf_setMatrix_self]
      · rw [matrixOf_setParent, matrixOf_setParent,
            matrixOf_applyScaleOp_other _ _ _ hcp2,
            matrixOf_applyScaleOp_self _ _ pm (by rw [hmat1]; exact hpm)]
        rfl
      · rw [idsOf_setParent, idsOf_setParent, idsOf_applyScaleOp,
            idsOf_applyScaleOp, hids1]
        exact hchild
    · rw [showNameOf_setShowName_other _ _ _ _ hcp2]
      apply showNameOf_setShowName_self
      rw [idsOf_setMatrix, idsOf_setParent, idsOf_setParent, idsOf_applyScaleOp,
          idsOf_applyScaleOp, hids1]
      exact hmemP
    · apply showNameOf_setShowName_self
      rw [idsOf_setShowName, idsOf_setMatrix, idsOf_setParent, idsOf_setParent,
          idsOf_applyScaleOp, idsOf_applyScaleOp, hids1]
      exact hchild

theorem connectInterfaces_default_transform_witness :
    (¬ (0 : Nat) = 1 ∧ (1 : Nat) ∈ idsOf sceneInterfacePair ∧
     parentOf sceneInterfacePair 1 = some 2 ∧
     matrixOf sceneInterfacePair 0 = some (MatE.base 5) ∧
     connectInterfaces sceneInterfacePair 0 1 none = .ok sceneInterfacePairConnected) ∧
      (parentOf sceneInterfacePairConnected 1 = some 0 ∧
       matrixOf sceneInterfacePairConnected 1 = some (MatE.mul (MatE.mul
         (MatE.translationOf (MatE.scaleApplied (MatE.base 5)))
         (MatE.rotationOf (MatE.scaleApplied (MatE.base 5)))) MatE.defaultConnectRot) ∧
       showNameOf sceneInterfacePairConnected 0 = some false ∧
       showNameOf sceneInterfacePairConnected 1 = some false) :=
  ⟨⟨by decide, by decide, by decide, by decide, by decide⟩,
   connectInterfaces_default_transform sceneInterfacePair 0 1 2 (MatE.base 5)
     sceneInterfacePairConnected (by decide) (by decide) (by decide) (by decide)
     (by decide)⟩

/-! ## C2 amended: the prefix is removed everywhere in the key -/

theorem pyDictUpdate_of_not_mem (d : List (List Char × Nat)) (k : List Char) (v : Nat)
    (h : ∀ kv ∈ d, kv.1 ≠ k) : pyDictUpdate d k v = d ++ [(k, v)] := by
  rw [pyDictUpdate, if_neg]
  intro hc
  rw [List.any_eq_true] at hc
  obtain ⟨kv, hkv, hbeq⟩ := hc
  exact h kv hkv (by simpa using hbeq)

theorem pyDictFold_append (l : List (List Char × Nat)) :
    ∀ d : List (List Char × Nat), (l.map Prod.fst).Nodup →
      (∀ kv ∈ d, kv.1 ∉ l.map Prod.fst) →
      l.foldl (fun d kv => pyDictUpdate d kv.1 kv.2) d = d ++ l := by
  induction l with
  | nil => intro d _ _; simp
  | cons kv t ih =>
    intro d hnd hdisj
    rw [List.map_cons, List.nodup_cons] at hnd
    rw [List.foldl_cons,
        pyDictUpdate_of_not_mem d kv.1 kv.2
          (fun kv2 h2 hc => hdisj kv2 h2 (by rw [hc]; exact List.mem_cons_self _ _))]
    rw [ih (d ++ [(kv.1, kv.2)]) hnd.2]
    · simp
    · intro kv2 hkv2
      rcases List.mem_append.mp hkv2 with h1 | h2
      · exact fun hc => hdisj kv2 h1 (List.mem_cons_of_mem _ hc)
      · have : kv2 = (kv.1, kv.2) := by simpa using h2
        rw [this]
        exact hnd.1

theorem pyDictOfList_eq_self (l : List (List Char × Nat))
    (hnd : (l.map Prod.fst).Nodup) : pyDictOfList l = l := by
  rw [pyDictOfList, pyDictFold_append l [] hnd (by simp)]
  simp

/-- C2 amended: getPropertiesSubset keeps exactly the items whose key starts
with the category followed by a slash, and rewrites each kept key with
key.replace, which removes EVERY occurrence of the category-slash pattern,
not only the leading one; when the rewritten keys are pairwise distinct the
result is exactly that list (later duplicates would overwrite earlier ones in
the Python dict comprehension). -/
theorem getPropertiesSubset_characterization (items : List (List Char × Nat))
    (pt : List Char) (cat : List Char) (hcat : cat ≠ [])
    (hnd : (((items.filter (fun kv => (cat ++ ['/']).isPrefixOf kv.1)).map
        (fun kv => (pyReplaceAll (cat ++ ['/']) kv.1, kv.2))).map Prod.fst).Nodup) :
    getPropertiesSubset items pt (some cat) =
      (items.filter (fun kv => (cat ++ ['/']).isPrefixOf kv.1)).map
        (fun kv => (pyReplaceAll (cat ++ ['/']) kv.1, kv.2)) := by
  cases cat with
  | nil => exact absurd rfl hcat
  | cons c0 cs => exact pyDictOfList_eq_self _ hnd

theorem getPropertiesSubset_characterization_witness :
    "visual".data ≠ [] ∧
      getPropertiesSubset [("visual/a".data, 1), ("other".data, 2), ("visual/b".data, 3)]
          [] (some "visual".data) =
        ([("visual/a".data, 1), ("other".data, 2), ("visual/b".data, 3)].filter
            (fun kv => ("visual".data ++ ['/']).isPrefixOf kv.1)).map
          (fun kv => (pyReplaceAll ("visual".data ++ ['/']) kv.1, kv.2)) :=
  ⟨by decide,
   getPropertiesSubset_characterization
     [("visual/a".data, 1), ("other".data, 2), ("visual/b".data, 3)] [] "visual".data
     (by decide) (by decide)⟩

/-! ## C3 amended: wildcard removal when the literal starred key is absent -/

theorem any_key_eq_false_iff (d : List (List Char × Nat)) (k : List Char) :
    d.any (fun kv => kv.1 == k) = false ↔ k ∉ d.map Prod.fst := by
  constructor
  · intro h hc
    obtain ⟨kv, hkv, hfst⟩ := List.mem_map.mp hc
    rw [List.any_eq_false] at h
    exact h kv hkv (by simp [hfst])
  · intro h
    rw [List.any_eq_false]
    intro kv hkv
    simp only [beq_iff_eq]
    exact fun hc => h (by rw [← hc]; exact List.mem_map_of_mem _ hkv)

theorem foldl_del_eq_filter (pre : List Char) (K : List (List Char)) :
    ∀ d : List (List Char × Nat),
      K.foldl (fun d2 k => if pre.isPrefixOf k then d2.filter (fun kv => kv.1 != k) else d2) d =
        d.filter (fun kv => !(pre.isPrefixOf kv.1 && K.contains kv.1)) := by
  induction K with
  | nil => intro d; simp
  | cons k K ih =>
    intro d
    rw [List.foldl_cons]
    by_cases hk : pre.isPrefixOf k
    · rw [if_pos hk, ih, List.filter_filter]
      apply List.filter_congr
      intro kv _
      by_cases hkv : kv.1 = k
      · simp [hkv, hk]
      · simp [hkv, List.contains_cons]
    · rw [if_neg hk, ih]
      apply List.filter_congr
      intro kv _
      by_cases hkv : kv.1 = k
      · have hpre : pre.isPrefixOf kv.1 = false := by
          rw [hkv]; exact Bool.eq_false_iff.mpr hk
        simp [hpre]
      · simp [hkv, List.contains_cons]

theorem removePropStep_sensor (d : List (List Char × Nat))
    (h : "sensor*".data ∉ d.map Prod.fst) :
    removePropStep d "sensor*".data = sensorFilter d := by
  rw [removePropStep,
      if_neg (by rw [(any_key_eq_false_iff d "sensor*".data).mpr h]; exact Bool.false_ne_true),
      if_pos (by decide), foldl_del_eq_filter]
  apply List.filter_congr
  intro kv hkv
  have hmem : (d.map Prod.fst).contains kv.1 = true := by
    simpa [List.elem_iff] using List.mem_map_of_mem Prod.fst hkv
  have hdrop : ("sensor*".data).dropLast = "sensor".data := by decide
  rw [hmem, hdrop, Bool.and_true]

mutual
theorem removeProperties_strip_obj (t : PObj) (h : noSensorStarKey t = true) :
    removeProperties ["sensor*".data] true t = sensorStripTree t := by
  match t with
  | .node d cs =>
    rw [noSensorStarKey, Bool.and_eq_true] at h
    have h1 : "sensor*".data ∉ d.map Prod.fst := by
      rw [← any_key_eq_false_iff]
      have hx := h.1
      rwa [Bool.not_eq_true'] at hx
    rw [removeProperties, sensorStripTree]
    show PObj.node (removeProps1 ["sensor*".data] d)
        (removePropertiesF ["sensor*".data] cs) = _
    rw [show removeProps1 ["sensor*".data] d = removePropStep d "sensor*".data from rfl,
        removePropStep_sensor d h1, removeProperties_strip_forest cs h.2]

theorem removeProperties_strip_forest (f : PForest) (h : noSensorStarKeyF f = true) :
    removePropertiesF ["sensor*".data] f = sensorStripTreeF f := by
  match f with
  | .nil => rfl
  | .cons c cs =>
    rw [noSensorStarKeyF, Bool.and_eq_true] at h
    rw [removePropertiesF, sensorStripTreeF,
        removeProperties_strip_obj c h.1, removeProperties_strip_forest cs h.2]
end

/-- C3 amended: removeProperties(obj, [sensor-star]) deletes exactly the keys
starting with sensor and leaves every other key-value pair unchanged PROVIDED
the literal key sensor-star is not itself present (an exact key match is
checked first and then only that key is deleted); with recursive=True the same
holds for the whole tree when no node carries the literal key. -/
theorem removeProperties_sensor_wildcard_safe :
    (∀ (d : List (List Char × Nat)) (cs : PForest),
      "sensor*".data ∉ d.map Prod.fst →
        removeProperties ["sensor*".data] false (PObj.node d cs) =
          PObj.node (sensorFilter d) cs) ∧
    (∀ t : PObj, noSensorStarKey t = true →
      removeProperties ["sensor*".data] true t = sensorStripTree t) := by
  constructor
  · intro d cs h
    show PObj.node (removeProps1 ["sensor*".data] d) cs = _
    rw [show removeProps1 ["sensor*".data] d = removePropStep d "sensor*".data from rfl,
        removePropStep_sensor d h]
  · exact fun t h => removeProperties_strip_obj t h

theorem removeProperties_sensor_wildcard_safe_witness :
    noSensorStarKey
        (PObj.node [("sensorA".data, 0), ("size".data, 1)]
          (PForest.cons (PObj.node [("sensor1".data, 2)] PForest.nil) PForest.nil)) = true ∧
      removeProperties ["sensor*".data] true
          (PObj.node [("sensorA".data, 0), ("size".data, 1)]
            (PForest.cons (PObj.node [("sensor1".data, 2)] PForest.nil) PForest.nil)) =
        sensorStripTree
          (PObj.node [("sensorA".data, 0), ("size".data, 1)]
            (PForest.cons (PObj.node [("sensor1".data, 2)] PForest.nil) PForest.nil)) :=
  ⟨by decide,
   removeProperties_sensor_wildcard_safe.2
     (PObj.node [("sensorA".data, 0), ("size".data, 1)]
       (PForest.cons (PObj.node [("sensor1".data, 2)] PForest.nil) PForest.nil)) (by decide)⟩

theorem getNearestCommonParent_lca_and_disjoint_witness :
    (BObj.child 0 (BObj.root 1)).rootOf ≠ (BObj.child 2 (BObj.root 3)).rootOf ∧
      getNearestCommonParent [BObj.child 0 (BObj.root 1), BObj.child 2 (BObj.root 3)] = none :=
  ⟨by decide,
   getNearestCommonParent_lca_and_disjoint.2 (BObj.child 0 (BObj.root 1))
     (BObj.child 2 (BObj.root 3)) (by decide)⟩

end Phobos
